import Mathlib

/-!
Verification of the `goglob` shell-pattern matcher.

A shallow embedding of the `goglob` crates (Go-style `path.Match` glob
patterns): the compiler (`scan_patterns`) that turns a pattern string into a
token sequence with positioned syntax errors, and the matcher
(`GlobPattern::_matches`) that evaluates a token sequence against a candidate
string with backtracking at `*` wildcards.  Strings are modelled as `List
Char`; byte positions are tracked with `Char.utf8Size`, mirroring
`str::char_indices`.
-/

/-- The `ErrorType` from `goglob-common/src/error.rs`. -/
inductive ErrorType where
  | emptyPattern : ErrorType
  | illegalEscape : ErrorType
  | invalidRangeValues : Char → Char → ErrorType
  | unclosedCharClass : ErrorType
  | unescapedChar : Char → ErrorType
deriving DecidableEq, Repr

/-- The `Error` from `goglob-common/src/error.rs`: an error kind plus a byte
position into the pattern. -/
structure Error where
  errorType : ErrorType
  pos : Nat
deriving DecidableEq, Repr

/-- The `usize::MAX` (64-bit), the sentinel position used by `Error::empty_pattern`. -/
def usizeMax : Nat := 2 ^ 64 - 1

/-- The `Error::empty_pattern()`. -/
def emptyPatternError : Error := ⟨.emptyPattern, usizeMax⟩

/-- The `CharClassType` from `goglob-common/src/charcls.rs`: a single character or
an inclusive character range. -/
inductive CharClassType where
  | single : Char → CharClassType
  | range : Char → Char → CharClassType
deriving DecidableEq, Repr

/-- The `CharClassType::matches`: a single item matches iff it is that character;
a range matches iff the character falls inside it (`RangeInclusive::contains`). -/
def CharClassType.matchesC : CharClassType → Char → Bool
  | .single m, c => m == c
  | .range lo hi, c => decide (lo ≤ c) && decide (c ≤ hi)

/-- The `CharClass` from `goglob-common/src/charcls.rs`: a negation flag plus the
ordered items of the class (the Rust field is called `matches`, a reserved
word here). -/
structure CharClass where
  negated : Bool
  items : List CharClassType
deriving DecidableEq, Repr

/-- The `CharClass::matches_char`: some item matches, XOR-ed with the negation flag. -/
def CharClass.matchesChar (cc : CharClass) (c : Char) : Bool :=
  (cc.items.any fun cct => cct.matchesC c) != cc.negated

/-- The `CharClass::matches_next`: `name.strip_prefix(|c| self.matches_char(c))` —
inspect the first character only, consume it iff the class matches it. -/
def CharClass.matchesNext (cc : CharClass) : List Char → Option (List Char)
  | [] => none
  | c :: rest => if cc.matchesChar c then some rest else none

/-- The `Literal::matches_next`: `name.strip_prefix(literal)` on a plain string. -/
def stripPrefixList : List Char → List Char → Option (List Char)
  | [], s => some s
  | _ :: _, [] => none
  | a :: l, b :: s => if a = b then stripPrefixList l s else none

/-- The `GlobToken` from `goglob-common/src/lib.rs`. -/
inductive GlobToken where
  | literal : List Char → GlobToken
  | charClass : CharClass → GlobToken
  | seqWildcard : GlobToken
  | singleWildcard : GlobToken
deriving DecidableEq, Repr

/-- The `GlobToken::try_matches_next`: deterministic one-token consumption;
`SeqWildcard` has no deterministic rule and signals `Err(())`. -/
def GlobToken.tryMatchesNext : GlobToken → List Char → Except Unit (Option (List Char))
  | .literal l, s => .ok (stripPrefixList l s)
  | .charClass cc, s => .ok (cc.matchesNext s)
  | .singleWildcard, [] => .ok none
  | .singleWildcard, c :: rest => .ok (if c ≠ '/' then some rest else none)
  | .seqWildcard, _ => .error ()

/-- The `'inner` loop of `GlobPattern::_matches`: starting from a candidate
split offset, run the remaining tokens deterministically until the next
`SeqWildcard` (stop there, `finished = false`) or until tokens run out
(`finished = true`, in which case the leftover must be empty, the
`!fail && (!finished || next_peek.is_empty())` check).  Returns the
post-segment cursor on success. -/
def segMatch : List GlobToken → List Char → Option (List GlobToken × List Char)
  | [], s => if s.isEmpty then some ([], s) else none
  | t :: ts, s =>
    match t.tryMatchesNext s with
    | .error _ => some (t :: ts, s)
    | .ok none => none
    | .ok (some s') => segMatch ts s'

theorem stripPrefixList_length {l s s' : List Char}
    (h : stripPrefixList l s = some s') : s'.length ≤ s.length := by
  induction l generalizing s with
  | nil =>
    simp only [stripPrefixList, Option.some.injEq] at h
    simp [h]
  | cons a l ih =>
    cases s with
    | nil => simp [stripPrefixList] at h
    | cons b s =>
      simp only [stripPrefixList] at h
      split at h
      · have := ih h
        simp only [List.length_cons]
        omega
      · simp at h

theorem tryMatchesNext_length {t : GlobToken} {s s' : List Char}
    (h : t.tryMatchesNext s = .ok (some s')) : s'.length ≤ s.length := by
  cases t with
  | literal l =>
    simp only [GlobToken.tryMatchesNext, Except.ok.injEq] at h
    exact stripPrefixList_length h
  | charClass cc =>
    simp only [GlobToken.tryMatchesNext, Except.ok.injEq] at h
    cases s with
    | nil => simp [CharClass.matchesNext] at h
    | cons c rest =>
      simp only [CharClass.matchesNext] at h
      split at h
      · simp only [Option.some.injEq] at h
        simp [← h]
      · simp at h
  | singleWildcard =>
    cases s with
    | nil => simp [GlobToken.tryMatchesNext] at h
    | cons c rest =>
      simp only [GlobToken.tryMatchesNext, Except.ok.injEq] at h
      split at h
      · simp only [Option.some.injEq] at h
        simp [← h]
      · simp at h
  | seqWildcard => simp [GlobToken.tryMatchesNext] at h

theorem segMatch_length {ts : List GlobToken} {s : List Char}
    {ts' : List GlobToken} {s' : List Char}
    (h : segMatch ts s = some (ts', s')) :
    ts'.length ≤ ts.length ∧ s'.length ≤ s.length := by
  induction ts generalizing s with
  | nil =>
    simp only [segMatch] at h
    split at h
    · simp only [Option.some.injEq, Prod.mk.injEq] at h
      exact ⟨by simp [← h.1], by simp [← h.2]⟩
    · simp at h
  | cons t ts ih =>
    simp only [segMatch] at h
    split at h
    · simp only [Option.some.injEq, Prod.mk.injEq] at h
      exact ⟨by simp [← h.1], by simp [← h.2]⟩
    · simp at h
    · rename_i s2 heq
      have h1 := tryMatchesNext_length heq
      have h2 := ih h
      refine ⟨?_, by omega⟩
      simp only [List.length_cons]
      omega

mutual

/-- The `GlobPattern::_matches` (the `'outer` loop): consume tokens
deterministically; at a `SeqWildcard` that is the last token, succeed iff no
`/` remains; at a `SeqWildcard` followed by more tokens, run the `'star`
offset search. After all tokens, succeed iff the candidate is exhausted. -/
def globMatchTokens : List GlobToken → List Char → Bool
  | [], s => s.isEmpty
  | t :: ts, s =>
    match h : t.tryMatchesNext s with
    | .ok (some s') => globMatchTokens ts s'
    | .ok none => false
    | .error _ =>
      if ts.isEmpty then !(s.contains '/')
      else starLoop ts s
termination_by ts s => 2 * ts.length + s.length
decreasing_by
  · have := tryMatchesNext_length h
    simp only [List.length_cons]
    omega
  · simp only [List.length_cons]
    omega

/-- The `'star` loop of `GlobPattern::_matches`: try each character offset of
the remaining string left to right; on a successful segment match commit and
resume the outer loop; on failure stop (failing the whole match) if the
offset's character is `/`, otherwise advance one character; an exhausted
string fails. -/
def starLoop : List GlobToken → List Char → Bool
  | _, [] => false
  | ts, c :: rest =>
    match h : segMatch ts (c :: rest) with
    | some (ts', s') => globMatchTokens ts' s'
    | none => if c = '/' then false else starLoop ts rest
termination_by ts s => 2 * ts.length + s.length + 1
decreasing_by
  · have := segMatch_length h
    simp only [List.length_cons] at this ⊢
    omega
  · simp only [List.length_cons]
    omega

end

/-- The literal-consuming loop (`'literal`) of `scan_patterns`: accumulate
characters until `'['`, `'?'` or `'*'` (which end the literal), failing on an
unescaped `']'` (at its position) or on a trailing `'\'` (`IllegalEscape` at
the backslash's position); `'\'` escapes the following character, whichever it
is.  Returns the accumulated characters, the unconsumed input, and the byte
position after the consumed part. -/
def scanLiteral : List Char → Nat → Except Error (List Char × List Char × Nat)
  | [], pos => .ok ([], [], pos)
  | c :: rest, pos =>
    if c = ']' then .error ⟨.unescapedChar ']', pos⟩
    else if c = '[' ∨ c = '?' ∨ c = '*' then .ok ([], c :: rest, pos)
    else if c = '\\' then
      match rest with
      | [] => .error ⟨.illegalEscape, pos⟩
      | e :: rest' =>
        match scanLiteral rest' (pos + 1 + e.utf8Size) with
        | .ok (lit, rem, pos') => .ok (e :: lit, rem, pos')
        | .error err => .error err
    else
      match scanLiteral rest (pos + c.utf8Size) with
      | .ok (lit, rem, pos') => .ok (c :: lit, rem, pos')
      | .error err => .error err

/-- The `'char_cls` loop of `scan_patterns`.  State: `startI` the byte position
of the opening `'['` (for `UnclosedCharClass`), `types` the items collected so
far, `inRange` the pending lower bound of a range announced by a peeked `'-'`,
`startRange` true exactly when the next character is that announced `'-'`.
A (non-escaped) `']'` closes the class, returning the items, the closing
bracket's position, the unconsumed input, and the byte position after it;
a `'-'` when `startRange` is false fails with `UnescapedChar('-')`; `'\'`
escapes the next character; after resolving a character, a pending lower bound
`lo` turns it into the range `lo..=c` (failing with `InvalidRangeValues` at the
current position when the range would be empty), otherwise a peeked `'-'`
makes it a pending lower bound, otherwise it is pushed as a single item. -/
def classLoop : Nat → List CharClassType → Option Char → Bool → List Char → Nat →
    Except Error (List CharClassType × Nat × List Char × Nat)
  | startI, _, _, _, [], _ => .error ⟨.unclosedCharClass, startI⟩
  | startI, types, inRange, startRange, c :: rest, pos =>
    if c = ']' then .ok (types, pos, rest, pos + 1)
    else if c = '-' then
      if startRange then classLoop startI types inRange false rest (pos + 1)
      else .error ⟨.unescapedChar '-', pos⟩
    else if c = '\\' then
      match rest with
      | [] => .error ⟨.illegalEscape, pos⟩
      | e :: rest' =>
        match inRange with
        | some lo =>
          if lo ≤ e then
            classLoop startI (types ++ [.range lo e]) none startRange rest'
              (pos + 1 + e.utf8Size)
          else .error ⟨.invalidRangeValues lo e, pos⟩
        | none =>
          if rest'.head? = some '-' then
            classLoop startI types (some e) true rest' (pos + 1 + e.utf8Size)
          else
            classLoop startI (types ++ [.single e]) none startRange rest'
              (pos + 1 + e.utf8Size)
    else
      match inRange with
      | some lo =>
        if lo ≤ c then
          classLoop startI (types ++ [.range lo c]) none startRange rest
            (pos + c.utf8Size)
        else .error ⟨.invalidRangeValues lo c, pos⟩
      | none =>
        if rest.head? = some '-' then
          classLoop startI types (some c) true rest (pos + c.utf8Size)
        else
          classLoop startI (types ++ [.single c]) none startRange rest
            (pos + c.utf8Size)

/-- The tail of the character-class branch of `scan_patterns`, after the
optional leading `'^'` has set the negation flag: the class body is parsed by
`classLoop`; a class that closed with zero items fails with
`UnescapedChar(']')` at the closing bracket's position. -/
def parseClassTail (startI : Nat) (negated : Bool) (cs : List Char) (pos : Nat) :
    Except Error (CharClass × List Char × Nat) :=
  match classLoop startI [] none false cs pos with
  | .error e => .error e
  | .ok (types, closedI, rem, pos') =>
    if types.isEmpty then .error ⟨.unescapedChar ']', closedI⟩
    else .ok (⟨negated, types⟩, rem, pos')

/-- The character-class branch of `scan_patterns`: called on the input just
after the `'['` (whose byte position is `startI`).  An optional leading `'^'`
sets the negation flag, then `parseClassTail` parses the class body. -/
def parseClass (startI : Nat) (cs : List Char) (pos : Nat) :
    Except Error (CharClass × List Char × Nat) :=
  match cs with
  | [] => parseClassTail startI false [] pos
  | c :: rest =>
    if c = '^' then parseClassTail startI true rest (pos + 1)
    else parseClassTail startI false (c :: rest) pos

theorem scanLiteral_length (cs : List Char) (pos : Nat) :
    ∀ {lit rem : List Char} {pos' : Nat},
      scanLiteral cs pos = .ok (lit, rem, pos') → rem.length ≤ cs.length := by
  induction cs, pos using scanLiteral.induct with
  | case1 pos =>
    intro lit rem pos' h
    rw [scanLiteral.eq_def] at h
    simp only [Except.ok.injEq, Prod.mk.injEq] at h
    simp [← h.2.1]
  | case2 rest pos =>
    intro lit rem pos' h
    rw [scanLiteral.eq_def] at h
    simp at h
  | case3 c rest pos hc hs =>
    intro lit rem pos' h
    rw [scanLiteral.eq_def] at h
    simp only [if_neg hc, if_pos hs, Except.ok.injEq, Prod.mk.injEq] at h
    simp [← h.2.1]
  | case4 pos hc hs =>
    intro lit rem pos' h
    rw [scanLiteral.eq_def] at h
    simp at h
  | case5 pos e rest' lit0 rem0 pos0 heq hc hs ih =>
    intro lit rem pos' h
    rw [scanLiteral.eq_def] at h
    simp only [heq] at h
    simp at h
    obtain ⟨-, h2, -⟩ := h
    subst h2
    have := ih heq
    simp only [List.length_cons]
    omega
  | case6 pos e rest' err heq hc hs ih =>
    intro lit rem pos' h
    rw [scanLiteral.eq_def] at h
    simp [heq] at h
  | case7 c rest pos hc hs hb lit0 rem0 pos0 heq ih =>
    intro lit rem pos' h
    rw [scanLiteral.eq_def] at h
    simp only [heq, if_neg hc, if_neg hs, if_neg hb, Except.ok.injEq,
      Prod.mk.injEq] at h
    have := ih heq
    simp only [List.length_cons, ← h.2.1]
    omega
  | case8 c rest pos hc hs hb err heq ih =>
    intro lit rem pos' h
    rw [scanLiteral.eq_def] at h
    simp [heq, hc, hs, hb] at h

theorem classLoop_length (startI : Nat) (types : List CharClassType)
    (inRange : Option Char) (startRange : Bool) (cs : List Char) (pos : Nat) :
    ∀ {types' : List CharClassType} {ci : Nat} {rem : List Char} {pos' : Nat},
      classLoop startI types inRange startRange cs pos = .ok (types', ci, rem, pos') →
      rem.length < cs.length := by
  induction startI, types, inRange, startRange, cs, pos using classLoop.induct with
  | case1 a b c d e =>
    intro t ci rem p h
    rw [classLoop.eq_def] at h
    simp at h
  | case2 startI types inRange startRange rest pos =>
    intro t ci rem p h
    rw [classLoop.eq_def] at h
    simp at h
    obtain ⟨-, -, h3, -⟩ := h
    subst h3
    simp
  | case3 startI types inRange rest pos h1 ih =>
    intro t ci rem p h
    rw [classLoop.eq_def] at h
    simp at h
    have := ih h
    simp only [List.length_cons]
    omega
  | case4 startI types inRange startRange rest pos h1 h2 =>
    intro t ci rem p h
    rw [classLoop.eq_def] at h
    simp [h1] at h
  | case5 startI types inRange startRange pos h1 h2 =>
    intro t ci rem p h
    rw [classLoop.eq_def] at h
    simp at h
  | case6 startI types startRange pos e rest' lo hle h1 h2 ih =>
    intro t ci rem p h
    rw [classLoop.eq_def] at h
    simp [hle] at h
    have := ih h
    simp only [List.length_cons]
    omega
  | case7 startI types startRange pos e rest' lo hnle h1 h2 =>
    intro t ci rem p h
    rw [classLoop.eq_def] at h
    simp [hnle] at h
  | case8 startI types startRange pos e rest' hpeek h1 h2 ih =>
    intro t ci rem p h
    rw [classLoop.eq_def] at h
    simp [hpeek] at h
    have := ih h
    simp only [List.length_cons]
    omega
  | case9 startI types startRange pos e rest' hnpeek h1 h2 ih =>
    intro t ci rem p h
    rw [classLoop.eq_def] at h
    simp [hnpeek] at h
    have := ih h
    simp only [List.length_cons]
    omega
  | case10 startI types startRange c rest pos hc hd hb lo hle ih =>
    intro t ci rem p h
    rw [classLoop.eq_def] at h
    simp [hc, hd, hb, hle] at h
    have := ih h
    simp only [List.length_cons]
    omega
  | case11 startI types startRange c rest pos hc hd hb lo hnle =>
    intro t ci rem p h
    rw [classLoop.eq_def] at h
    simp [hc, hd, hb, hnle] at h
  | case12 startI types startRange c rest pos hc hd hb hpeek ih =>
    intro t ci rem p h
    rw [classLoop.eq_def] at h
    simp [hc, hd, hb, hpeek] at h
    have := ih h
    simp only [List.length_cons]
    omega
  | case13 startI types startRange c rest pos hc hd hb hnpeek ih =>
    intro t ci rem p h
    rw [classLoop.eq_def] at h
    simp [hc, hd, hb, hnpeek] at h
    have := ih h
    simp only [List.length_cons]
    omega

theorem parseClassTail_length {startI : Nat} {negated : Bool} {cs : List Char}
    {pos : Nat} {cc : CharClass} {rem : List Char} {pos' : Nat}
    (h : parseClassTail startI negated cs pos = .ok (cc, rem, pos')) :
    rem.length < cs.length := by
  unfold parseClassTail at h
  split at h
  · simp at h
  · rename_i types closedI rem0 pos0 heq
    split at h
    · simp at h
    · simp only [Except.ok.injEq, Prod.mk.injEq] at h
      obtain ⟨-, h2, -⟩ := h
      subst h2
      exact classLoop_length startI [] none false cs pos heq

theorem parseClass_length {startI : Nat} {cs : List Char} {pos : Nat}
    {cc : CharClass} {rem : List Char} {pos' : Nat}
    (h : parseClass startI cs pos = .ok (cc, rem, pos')) :
    rem.length < cs.length + 1 := by
  unfold parseClass at h
  split at h
  · have := parseClassTail_length h
    omega
  · split at h
    · have := parseClassTail_length h
      simp only [List.length_cons]
      omega
    · have := parseClassTail_length h
      simp only [List.length_cons] at this
      simp only [List.length_cons]
      omega

theorem scanLiteral_cons_length {c : Char} {rest : List Char} {pos : Nat}
    {lit rem : List Char} {pos' : Nat}
    (hc : ¬(c = '[' ∨ c = '?' ∨ c = '*'))
    (h : scanLiteral (c :: rest) pos = .ok (lit, rem, pos')) :
    rem.length < (c :: rest).length ∧ lit ≠ [] := by
  by_cases h1 : c = ']'
  · rw [scanLiteral.eq_def] at h
    simp [h1] at h
  · by_cases h2 : c = '\\'
    · subst h2
      rw [scanLiteral.eq_def] at h
      simp only [if_neg h1, if_neg hc] at h
      split at h
      · split at h
        · simp at h
        · rename_i rest0 e rest'
          cases hrec : scanLiteral rest' (pos + 1 + e.utf8Size) with
          | ok v =>
            obtain ⟨lit0, rem0, pos0⟩ := v
            rw [hrec] at h
            simp at h
            obtain ⟨hl, hr, -⟩ := h
            subst hr
            have := scanLiteral_length _ _ hrec
            refine ⟨?_, fun hnil => by subst hnil; simp at hl⟩
            simp only [List.length_cons]
            omega
          | error err =>
            rw [hrec] at h
            simp at h
      · rename_i ho
        exact absurd trivial ho
    · rw [scanLiteral.eq_def] at h
      simp only [if_neg h1, if_neg hc, if_neg h2] at h
      cases hrec : scanLiteral rest (pos + c.utf8Size) with
      | ok v =>
        obtain ⟨lit0, rem0, pos0⟩ := v
        rw [hrec] at h
        simp at h
        obtain ⟨hl, hr, -⟩ := h
        subst hr
        have := scanLiteral_length _ _ hrec
        refine ⟨?_, fun hnil => by subst hnil; simp at hl⟩
        simp only [List.length_cons]
        omega
      | error err =>
        rw [hrec] at h
        simp at h

/-- The main loop of `scan_patterns`.  The Rust loop runs, per iteration, the
star phase, the literal phase, the `?` phase and the class phase, each guarded
by a peek at the next character; since every phase is a no-op unless its
guard's character is next, the loop is equivalently re-entered after each
phase, which is how it is written here: dispatch on the next character, run
the matching phase, recurse on what it left unconsumed. -/
def scanLoop : List Char → Nat → Except Error (List GlobToken)
  | [], _ => .ok []
  | c :: rest, pos =>
    if c = '*' then
      -- consume the whole run of `*` and push a single SeqWildcard
      match scanLoop (rest.dropWhile fun x => x = '*')
          (pos + 1 + (rest.takeWhile fun x => x = '*').length) with
      | .ok ts => .ok (.seqWildcard :: ts)
      | .error e => .error e
    else if c = '?' then
      -- one SingleWildcard per `?`
      match scanLoop rest (pos + 1) with
      | .ok ts => .ok (.singleWildcard :: ts)
      | .error e => .error e
    else if c = '[' then
      match hpc : parseClass pos rest (pos + 1) with
      | .error e => .error e
      | .ok (cc, rem, pos') =>
        match scanLoop rem pos' with
        | .ok ts => .ok (.charClass cc :: ts)
        | .error e => .error e
    else
      match hlit : scanLiteral (c :: rest) pos with
      | .error e => .error e
      | .ok (lit, rem, pos') =>
        -- `if !literal_string.is_empty()` in the Rust source
        if lit.isEmpty then scanLoop rem pos'
        else
          match scanLoop rem pos' with
          | .ok ts => .ok (.literal lit :: ts)
          | .error e => .error e
termination_by cs _ => cs.length
decreasing_by
  · simp only [List.length_cons]
    have := (List.dropWhile_suffix (l := rest) fun x => x = '*').length_le
    omega
  · simp only [List.length_cons]
    omega
  · have := parseClass_length hpc
    simp only [List.length_cons]
    omega
  · rename_i hs hq hb hemp
    exact (scanLiteral_cons_length (by simp [hs, hq, hb]) hlit).1
  · rename_i hs hq hb hemp
    exact (scanLiteral_cons_length (by simp [hs, hq, hb]) hlit).1

/-- The `scan_patterns` from `goglob-common/src/lib.rs` (as called by
`GlobPattern::_new` with an empty token vector): an empty pattern fails with
`EmptyPattern`, otherwise the main loop scans the whole pattern. -/
def scanPatterns (pattern : List Char) : Except Error (List GlobToken) :=
  if pattern.isEmpty then .error emptyPatternError
  else scanLoop pattern 0

/-- The `GlobPattern::new` followed by `GlobPattern::matches`: compile the pattern
and run the matcher; `none` when compilation fails. -/
def compileMatches (p name : String) : Option Bool :=
  match scanPatterns p.toList with
  | .ok ts => some (globMatchTokens ts name.toList)
  | .error _ => none

/-- The `ErrorType::type_desc`. -/
def ErrorType.typeDesc : ErrorType → String
  | .emptyPattern => "empty pattern"
  | .illegalEscape => "illegal use of '\\': end of pattern"
  | .invalidRangeValues _ _ => "invalid character range"
  | .unclosedCharClass => "character class opened with '[' isn't closed"
  | .unescapedChar _ => "special character not escaped with '\\'"

/-- The `ErrorType::fmt_with_pos`, rendered to a `String` exactly as the `write!`
templates produce it (including the source's spelling of the positioned
invalid-range message). -/
def ErrorType.fmtWithPos : ErrorType → Option Nat → String
  | .illegalEscape, some pos =>
    "illegal use of '\\' at " ++ toString pos ++ ": end of pattern"
  | .invalidRangeValues lo hi, some pos =>
    "invalid charater range at " ++ toString pos ++ ": " ++
      lo.toString ++ "-" ++ hi.toString
  | .invalidRangeValues lo hi, none =>
    "invalid charater range: " ++ lo.toString ++ "-" ++ hi.toString
  | .unclosedCharClass, some pos =>
    "character class opened with '[' at " ++ toString pos ++ " isn't closed"
  | .unescapedChar c, some pos =>
    "special character " ++ c.toString ++ " at " ++ toString pos ++
      " not escaped with '\\'"
  | .unescapedChar c, none =>
    "special character " ++ c.toString ++ " not escaped with '\\'"
  | et, _ => et.typeDesc

/-- The `Display for Error`: `self.error_type.fmt_with_pos(Some(self.pos), f)`. -/
def Error.render (e : Error) : String :=
  e.errorType.fmtWithPos (some e.pos)

/-- No two adjacent `SeqWildcard` tokens occur in the list. -/
def noAdjSeq : List GlobToken → Bool
  | [] => true
  | [_] => true
  | t1 :: t2 :: rest =>
    !(t1 == GlobToken.seqWildcard && t2 == GlobToken.seqWildcard) &&
      noAdjSeq (t2 :: rest)

theorem starLoop_iff (ts : List GlobToken) (s : List Char) :
    starLoop ts s = true ↔
      ∃ i, i < s.length ∧
        (∀ j, j < i → (s.drop j).head? ≠ some '/') ∧
        (∀ j, j < i → segMatch ts (s.drop j) = none) ∧
        ∃ ts2 s2, segMatch ts (s.drop i) = some (ts2, s2) ∧
          globMatchTokens ts2 s2 = true := by
  induction s with
  | nil =>
    rw [starLoop]
    simp
  | cons c rest ih =>
    rw [starLoop]
    cases hseg : segMatch ts (c :: rest) with
    | some p =>
      obtain ⟨ts2, s2⟩ := p
      simp only [hseg]
      constructor
      · intro hglob
        exact ⟨0, by simp, by simp, by simp, ts2, s2, by simpa using hseg, hglob⟩
      · rintro ⟨i, hlen, hslash, hfail, ts3, s3, hseg3, hglob3⟩
        cases i with
        | zero =>
          rw [List.drop_zero, hseg] at hseg3
          simp only [Option.some.injEq, Prod.mk.injEq] at hseg3
          obtain ⟨h1, h2⟩ := hseg3
          subst h1
          subst h2
          exact hglob3
        | succ i' =>
          have h0 := hfail 0 (Nat.succ_pos _)
          rw [List.drop_zero] at h0
          rw [h0] at hseg
          exact absurd hseg (by simp)
    | none =>
      simp only [hseg]
      by_cases hc : c = '/'
      · subst hc
        simp only [if_pos rfl]
        constructor
        · intro hf
          exact absurd hf (by simp)
        · rintro ⟨i, hlen, hslash, hfail, ts3, s3, hseg3, hglob3⟩
          cases i with
          | zero =>
            rw [List.drop_zero, hseg] at hseg3
            exact absurd hseg3 (by simp)
          | succ i' =>
            have := hslash 0 (Nat.succ_pos _)
            rw [List.drop_zero] at this
            simp at this
      · simp only [if_neg hc, ih]
        constructor
        · rintro ⟨i, hlen, hslash, hfail, ts3, s3, hseg3, hglob3⟩
          refine ⟨i + 1, by simpa using hlen, ?_, ?_, ts3, s3, by simpa using hseg3,
            hglob3⟩
          · intro j hj
            cases j with
            | zero => simpa using hc
            | succ j' => simpa using hslash j' (by omega)
          · intro j hj
            cases j with
            | zero => simpa using hseg
            | succ j' => simpa using hfail j' (by omega)
        · rintro ⟨i, hlen, hslash, hfail, ts3, s3, hseg3, hglob3⟩
          cases i with
          | zero =>
            rw [List.drop_zero, hseg] at hseg3
            exact absurd hseg3 (by simp)
          | succ i' =>
            refine ⟨i', by simpa using hlen, ?_, ?_, ts3, s3, by simpa using hseg3,
              hglob3⟩
            · intro j hj
              simpa using hslash (j + 1) (by omega)
            · intro j hj
              simpa using hfail (j + 1) (by omega)

/-- Claim C2: when the matcher resolves a `SeqWildcard` whose following
segment is non-empty, it tries candidate split offsets 0, 1, 2, … into the
remaining string left to right, committing to the first offset whose segment
match succeeds, and it stops trying offsets and fails the whole match once an
offset's character is `/` (the failed attempt at that offset having already
happened) or the string is exhausted; consequently
`compile("a*/b").is_match("a/c/b") == false` while
`compile("a*b*c*d*e*/f").is_match("axbxcxdxe/f") == true`. -/
theorem seqWildcard_offset_search :
    (∀ (ts : List GlobToken) (s : List Char),
      starLoop ts s = true ↔
        ∃ i, i < s.length ∧
          (∀ j, j < i → (s.drop j).head? ≠ some '/') ∧
          (∀ j, j < i → segMatch ts (s.drop j) = none) ∧
          ∃ ts2 s2, segMatch ts (s.drop i) = some (ts2, s2) ∧
            globMatchTokens ts2 s2 = true) ∧
    compileMatches "a*/b" "a/c/b" = some false ∧
    compileMatches "a*b*c*d*e*/f" "axbxcxdxe/f" = some true := by
  refine ⟨starLoop_iff, ?_, ?_⟩ <;>
    simp [compileMatches, scanPatterns, scanLoop, parseClass, parseClassTail,
      classLoop, scanLiteral, globMatchTokens, starLoop, segMatch,
      GlobToken.tryMatchesNext, stripPrefixList, CharClass.matchesNext,
      String.toList, Char.utf8Size]

/-- Claim C3: when the matcher reaches a final `SeqWildcard` (it is the only
remaining token) with remaining string `s`, the whole match succeeds iff `s`
contains no `/`; in particular `compile("a*").is_match("abc") == true` and
`compile("a*").is_match("ab/c") == false`. -/
theorem seqWildcard_final_no_slash :
    (∀ s : List Char,
      globMatchTokens [GlobToken.seqWildcard] s = !(s.contains '/')) ∧
    compileMatches "a*" "abc" = some true ∧
    compileMatches "a*" "ab/c" = some false := by
  refine ⟨fun s => ?_, ?_, ?_⟩
  · rw [globMatchTokens]
    cases s <;> simp [GlobToken.tryMatchesNext]
  all_goals
    simp [compileMatches, scanPatterns, scanLoop, parseClass, parseClassTail,
      classLoop, scanLiteral, globMatchTokens, starLoop, segMatch,
      GlobToken.tryMatchesNext, stripPrefixList, CharClass.matchesNext,
      String.toList, Char.utf8Size]

/-- Claim C7: the character-class matcher inspects only the first character
`c` of the remaining string, consuming exactly it iff
`(some item matches c) != negated`, returning nothing otherwise and always
returning nothing on the empty string; for a fixed item set and character,
the negated class matches exactly when the non-negated one does not. -/
theorem charClass_consume_and_complement :
    (∀ cc : CharClass, cc.matchesNext [] = none) ∧
    (∀ (cc : CharClass) (c : Char) (rest : List Char),
      cc.matchesNext (c :: rest) =
        if ((cc.items.any fun i => i.matchesC c) != cc.negated) = true
        then some rest else none) ∧
    (∀ (items : List CharClassType) (c : Char),
      CharClass.matchesChar ⟨true, items⟩ c =
        !CharClass.matchesChar ⟨false, items⟩ c) := by
  refine ⟨fun cc => rfl, fun cc c rest => rfl, fun items c => ?_⟩
  cases h : items.any fun i => i.matchesC c <;>
    simp [CharClass.matchesChar, h]

/-- Claim C8: `SingleWildcard` consumes exactly one character provided it is
not `/`; an empty remaining string and a remaining string beginning with `/`
both fail the consume attempt, and with it the overall match. -/
theorem singleWildcard_consume :
    (∀ (c : Char) (rest : List Char),
      GlobToken.singleWildcard.tryMatchesNext (c :: rest) =
        .ok (if c ≠ '/' then some rest else none)) ∧
    (GlobToken.singleWildcard.tryMatchesNext [] = .ok none) ∧
    (∀ ts : List GlobToken,
      globMatchTokens (GlobToken.singleWildcard :: ts) [] = false) ∧
    (∀ (ts : List GlobToken) (rest : List Char),
      globMatchTokens (GlobToken.singleWildcard :: ts) ('/' :: rest) = false) := by
    refine ⟨fun c rest => rfl, rfl, fun ts => ?_, fun ts rest => ?_⟩ <;>
      · rw [globMatchTokens]
        simp [GlobToken.tryMatchesNext]

/-- Claim C6 records the message template for `InvalidRangeValues`; the code
renders it with "charater" where its own `type_desc` (and the template) spell
"character": evaluated at the error produced by compiling "[e-a]"
(`InvalidRangeValues('e','a')` at byte position 3), the rendering differs
from the template's text only by that misspelling. -/
theorem invalidRange_render_typo :
    Error.render ⟨.invalidRangeValues 'e' 'a', 3⟩ =
      "invalid charater range at 3: e-a" ∧
    Error.render ⟨.invalidRangeValues 'e' 'a', 3⟩ ≠
      "invalid character range at 3: e-a" ∧
    ErrorType.typeDesc (.invalidRangeValues 'e' 'a') = "invalid character range" := by
  refine ⟨?_, ?_, ?_⟩ <;> decide

/-- Claim C4: inside a character class, the first non-escaped `]` encountered
(including immediately after `[` or `[^`) always closes the class, leaving
the items collected so far untouched (it is never read as a literal member);
if the class then has zero items, compilation fails with `UnescapedChar(']')`
at the byte position of that `]`; in particular `compile("[]a]")` fails with
`UnescapedChar(']')` at position 1. -/
theorem classClose_empty_error :
    (∀ (startI : Nat) (types : List CharClassType) (inRange : Option Char)
       (startRange : Bool) (rest : List Char) (pos : Nat),
      classLoop startI types inRange startRange (']' :: rest) pos =
        .ok (types, pos, rest, pos + 1)) ∧
    (∀ (startI : Nat) (negated : Bool) (rest : List Char) (pos : Nat),
      parseClassTail startI negated (']' :: rest) pos =
        .error ⟨.unescapedChar ']', pos⟩) ∧
    (∀ (startI : Nat) (rest : List Char) (pos : Nat),
      parseClass startI (']' :: rest) pos = .error ⟨.unescapedChar ']', pos⟩) ∧
    (∀ (startI : Nat) (rest : List Char) (pos : Nat),
      parseClass startI ('^' :: ']' :: rest) pos =
        .error ⟨.unescapedChar ']', pos + 1⟩) ∧
    scanPatterns "[]a]".toList = .error ⟨.unescapedChar ']', 1⟩ := by
  have hclose : ∀ (startI : Nat) (types : List CharClassType)
      (inRange : Option Char) (startRange : Bool) (rest : List Char) (pos : Nat),
      classLoop startI types inRange startRange (']' :: rest) pos =
        .ok (types, pos, rest, pos + 1) := by
    intro startI types inRange startRange rest pos
    rw [classLoop.eq_def]
    simp
  refine ⟨hclose, fun startI negated rest pos => ?_, fun startI rest pos => ?_,
    fun startI rest pos => ?_, ?_⟩
  · simp [parseClassTail, hclose]
  · simp [parseClass, parseClassTail, hclose]
  · simp [parseClass, parseClassTail, hclose]
  · simp [scanPatterns, scanLoop, parseClass, parseClassTail, classLoop,
      scanLiteral, String.toList, Char.utf8Size]

/-- Claim C5 asserts that the `InvalidRangeValues` error is reported at the
byte position of the upper bound character for every empty range; with an
escaped upper bound the code instead reports the backslash's position: in
`[e-\\a]` the upper bound character `a` sits at byte 4, yet compilation
fails with `InvalidRangeValues('e','a')` at byte 3, the backslash. -/
theorem escaped_upper_bound_position :
    scanPatterns "[e-\\a]".toList =
      .error ⟨.invalidRangeValues 'e' 'a', 3⟩ ∧
    "[e-\\a]".toList = ['[', 'e', '-', '\\', 'a', ']'] := by
  refine ⟨?_, by decide⟩
  simp [scanPatterns, scanLoop, parseClass, parseClassTail, classLoop,
    scanLiteral, String.toList, Char.utf8Size]

/-- Claim C5 (amended): whenever the class parser resolves the upper bound of
a pending range and the lower bound is strictly greater, compilation fails
with `InvalidRangeValues(lower, upper)` at the byte position where the upper
bound's representation begins in the pattern — the upper bound character's
own byte offset when it is unescaped (`[lo-hi...` errors at `1 + |lo| + 1`,
e.g. `[e-a]` at 3), and the backslash's byte offset when it is escaped
(`[lo-\\hi...` also errors at `1 + |lo| + 1`, e.g. `[e-\\a]` at 3 although
`a` itself sits at byte 4). -/
theorem invalidRange_upper_bound_position :
    (∀ (startI : Nat) (types : List CharClassType) (startRange : Bool)
       (lo hi : Char) (rest : List Char) (pos : Nat),
      hi ≠ ']' → hi ≠ '-' → hi ≠ '\\' → ¬lo ≤ hi →
      classLoop startI types (some lo) startRange (hi :: rest) pos =
        .error ⟨.invalidRangeValues lo hi, pos⟩) ∧
    (∀ (startI : Nat) (types : List CharClassType) (startRange : Bool)
       (lo hi : Char) (rest : List Char) (pos : Nat),
      ¬lo ≤ hi →
      classLoop startI types (some lo) startRange ('\\' :: hi :: rest) pos =
        .error ⟨.invalidRangeValues lo hi, pos⟩) ∧
    (∀ (lo hi : Char) (rest : List Char),
      lo ≠ ']' → lo ≠ '^' → lo ≠ '-' → lo ≠ '\\' →
      hi ≠ ']' → hi ≠ '-' → hi ≠ '\\' → ¬lo ≤ hi →
      scanPatterns ('[' :: lo :: '-' :: hi :: rest) =
        .error ⟨.invalidRangeValues lo hi, 1 + lo.utf8Size + 1⟩) ∧
    (∀ (lo hi : Char) (rest : List Char),
      lo ≠ ']' → lo ≠ '^' → lo ≠ '-' → lo ≠ '\\' → ¬lo ≤ hi →
      scanPatterns ('[' :: lo :: '-' :: '\\' :: hi :: rest) =
        .error ⟨.invalidRangeValues lo hi, 1 + lo.utf8Size + 1⟩) ∧
    scanPatterns "[e-a]".toList = .error ⟨.invalidRangeValues 'e' 'a', 3⟩ := by
  have hup : ∀ (startI : Nat) (types : List CharClassType) (startRange : Bool)
      (lo hi : Char) (rest : List Char) (pos : Nat),
      hi ≠ ']' → hi ≠ '-' → hi ≠ '\\' → ¬lo ≤ hi →
      classLoop startI types (some lo) startRange (hi :: rest) pos =
        .error ⟨.invalidRangeValues lo hi, pos⟩ := by
    intro startI types startRange lo hi rest pos h1 h2 h3 h4
    rw [classLoop.eq_def]
    simp [h1, h2, h3, h4]
  have hesc : ∀ (startI : Nat) (types : List CharClassType) (startRange : Bool)
      (lo hi : Char) (rest : List Char) (pos : Nat),
      ¬lo ≤ hi →
      classLoop startI types (some lo) startRange ('\\' :: hi :: rest) pos =
        .error ⟨.invalidRangeValues lo hi, pos⟩ := by
    intro startI types startRange lo hi rest pos h4
    rw [classLoop.eq_def]
    simp [h4]
  refine ⟨hup, hesc, fun lo hi rest hlo1 hlo2 hlo3 hlo4 h1 h2 h3 h4 => ?_,
    fun lo hi rest hlo1 hlo2 hlo3 hlo4 h4 => ?_, ?_⟩
  · have step1 : classLoop 0 [] none false (lo :: '-' :: hi :: rest) 1 =
        classLoop 0 [] (some lo) true ('-' :: hi :: rest) (1 + lo.utf8Size) := by
      rw [classLoop.eq_def]
      simp [hlo1, hlo3, hlo4]
    have step2 : classLoop 0 [] (some lo) true ('-' :: hi :: rest)
        (1 + lo.utf8Size) =
        classLoop 0 [] (some lo) false (hi :: rest) (1 + lo.utf8Size + 1) := by
      rw [classLoop.eq_def]
      simp
    have hpc : parseClass 0 (lo :: '-' :: hi :: rest) 1 =
        .error ⟨.invalidRangeValues lo hi, 1 + lo.utf8Size + 1⟩ := by
      simp [parseClass, parseClassTail, step1, step2,
        hup _ _ _ _ _ _ _ h1 h2 h3 h4, hlo2]
    simp [scanPatterns, scanLoop]
    split
    · rename_i e heq
      rw [hpc] at heq
      injection heq with h5
      rw [← h5]
    · rename_i cc rem pos2 heq
      rw [hpc] at heq
      simp at heq
  · have step1 : classLoop 0 [] none false (lo :: '-' :: '\\' :: hi :: rest) 1 =
        classLoop 0 [] (some lo) true ('-' :: '\\' :: hi :: rest)
          (1 + lo.utf8Size) := by
      rw [classLoop.eq_def]
      simp [hlo1, hlo3, hlo4]
    have step2 : classLoop 0 [] (some lo) true ('-' :: '\\' :: hi :: rest)
        (1 + lo.utf8Size) =
        classLoop 0 [] (some lo) false ('\\' :: hi :: rest)
          (1 + lo.utf8Size + 1) := by
      rw [classLoop.eq_def]
      simp
    have hpc : parseClass 0 (lo :: '-' :: '\\' :: hi :: rest) 1 =
        .error ⟨.invalidRangeValues lo hi, 1 + lo.utf8Size + 1⟩ := by
      simp [parseClass, parseClassTail, step1, step2,
        hesc _ _ _ _ _ _ _ h4, hlo2]
    simp [scanPatterns, scanLoop]
    split
    · rename_i e heq
      rw [hpc] at heq
      injection heq with h5
      rw [← h5]
    · rename_i cc rem pos2 heq
      rw [hpc] at heq
      simp at heq
  · simp [scanPatterns, scanLoop, parseClass, parseClassTail, classLoop,
      scanLiteral, String.toList, Char.utf8Size]

/-- Witness for the hypotheses of `invalidRange_upper_bound_position`,
discharged at the concrete escaped class `[e-\\a]`. -/
theorem invalidRange_upper_bound_position_witness :
    scanPatterns ('[' :: 'e' :: '-' :: '\\' :: 'a' :: [']']) =
      .error ⟨.invalidRangeValues 'e' 'a', 1 + 'e'.utf8Size + 1⟩ :=
  invalidRange_upper_bound_position.2.2.2.1 'e' 'a' [']'] (by decide)
    (by decide) (by decide) (by decide) (by decide)

/-- Claim C1 asserts that a class with a trailing `-` before `]` (such as
`[ax-]`) never compiles; in fact the scanner accepts `[ax-]`, compiling it to
the class containing only `'a'` — the pending range start `x` is silently
dropped when the class closes. -/
theorem trailing_dash_compiles :
    scanPatterns "[ax-]".toList =
      .ok [GlobToken.charClass ⟨false, [CharClassType.single 'a']⟩] := by
  simp [scanPatterns, scanLoop, parseClass, parseClassTail, classLoop,
    scanLiteral, String.toList, Char.utf8Size]

/-- Claim C1 (amended): a `-` encountered inside a class when no range start
is pending — as the first character, after another `-`, or after a
just-closed range — fails with `UnescapedChar('-')` at its byte position; but
a `-` immediately followed by the closing `]` is consumed as a pending range
start that the `]` silently discards: `[x-]` fails only because the class is
then empty (`UnescapedChar(']')` at the `]`'s position 3, not
`UnescapedChar('-')`), and `[ax-]` compiles successfully to the class
containing only `'a'`. -/
theorem dash_placement_errors :
    (∀ (startI : Nat) (types : List CharClassType) (inRange : Option Char)
       (rest : List Char) (pos : Nat),
      classLoop startI types inRange false ('-' :: rest) pos =
        .error ⟨.unescapedChar '-', pos⟩) ∧
    scanPatterns "[x-]".toList = .error ⟨.unescapedChar ']', 3⟩ ∧
    scanPatterns "[ax-]".toList =
      .ok [GlobToken.charClass ⟨false, [CharClassType.single 'a']⟩] := by
  refine ⟨fun startI types inRange rest pos => ?_, ?_, ?_⟩
  · rw [classLoop.eq_def]
    simp
  all_goals
    simp [scanPatterns, scanLoop, parseClass, parseClassTail, classLoop,
      scanLiteral, String.toList, Char.utf8Size]

theorem dropWhile_star_head (l r : List Char)
    (h : (l.dropWhile fun x => x = '*') = '*' :: r) : False := by
  induction l with
  | nil => simp [List.dropWhile] at h
  | cons a l ih =>
    rw [List.dropWhile_cons] at h
    split at h
    · exact ih h
    · rename_i hp
      simp only [List.cons.injEq] at h
      exact hp (by simp [h.1])

theorem noAdjSeq_cons {t : GlobToken} {ts : List GlobToken}
    (hts : noAdjSeq ts = true)
    (h : t = GlobToken.seqWildcard → ts.head? ≠ some GlobToken.seqWildcard) :
    noAdjSeq (t :: ts) = true := by
  cases ts with
  | nil => simp [noAdjSeq]
  | cons t2 ts2 =>
    simp only [noAdjSeq, Bool.and_eq_true, Bool.not_eq_eq_eq_not, Bool.not_true]
    refine ⟨?_, hts⟩
    by_cases h1 : t = GlobToken.seqWildcard
    · have h2 := h h1
      simp only [List.head?_cons, ne_eq, Option.some.injEq] at h2
      simp [h1, h2]
    · simp [h1]

theorem scanLoop_inv (cs : List Char) (pos : Nat) :
    ∀ ts : List GlobToken, scanLoop cs pos = .ok ts →
      noAdjSeq ts = true ∧ (cs ≠ [] → ts ≠ []) ∧
      (ts.head? = some GlobToken.seqWildcard → ∃ r, cs = '*' :: r) ∧
      (∀ l, GlobToken.literal l ∈ ts → l ≠ []) := by
  induction cs, pos using scanLoop.induct with
  | case1 pos =>
    intro ts h
    rw [scanLoop.eq_def] at h
    simp at h
    subst h
    refine ⟨rfl, by simp, by simp, by simp⟩
  | case2 rest pos ts0 hrec ih =>
    intro ts h
    rw [scanLoop.eq_def] at h
    simp [hrec] at h
    subst h
    obtain ⟨ih1, ih2, ih3, ih4⟩ := ih ts0 hrec
    refine ⟨?_, by simp, fun _ => ⟨rest, rfl⟩, ?_⟩
    · apply noAdjSeq_cons ih1
      intro _ hhead
      obtain ⟨r, hr⟩ := ih3 hhead
      exact absurd hr (fun hr => dropWhile_star_head _ _ hr)
    · intro l hl
      simp only [List.mem_cons] at hl
      rcases hl with h' | h'
      · exact absurd h' (by simp)
      · exact ih4 l h'
  | case3 rest pos e hrec ih =>
    intro ts h
    rw [scanLoop.eq_def] at h
    simp [hrec] at h
  | case4 rest pos ts0 hrec hq ih =>
    intro ts h
    rw [scanLoop.eq_def] at h
    simp [hrec] at h
    subst h
    obtain ⟨ih1, ih2, ih3, ih4⟩ := ih ts0 hrec
    refine ⟨?_, by simp, by simp, ?_⟩
    · exact noAdjSeq_cons ih1 (fun habs => absurd habs (by simp))
    · intro l hl
      simp only [List.mem_cons] at hl
      rcases hl with h' | h'
      · exact absurd h' (by simp)
      · exact ih4 l h'
  | case5 rest pos e hrec hq ih =>
    intro ts h
    rw [scanLoop.eq_def] at h
    simp [hrec] at h
  | case6 rest pos e hpc hb1 hb2 =>
    intro ts h
    rw [scanLoop.eq_def] at h
    simp at h
    split at h
    · simp at h
    · rename_i cc2 rem2 pos2 heq
      rw [hpc] at heq
      simp at heq
  | case7 rest pos cc rem pos' hpc ts0 hrec hb1 hb2 ih =>
    intro ts h
    rw [scanLoop.eq_def] at h
    simp at h
    split at h
    · rename_i e2 heq
      rw [hpc] at heq
      simp at heq
    · rename_i cc2 rem2 pos2 heq
      rw [hpc] at heq
      simp only [Except.ok.injEq, Prod.mk.injEq] at heq
      obtain ⟨e1, e2, e3⟩ := heq
      subst e1
      subst e2
      subst e3
      simp [hrec] at h
      subst h
      obtain ⟨ih1, ih2, ih3, ih4⟩ := ih ts0 hrec
      refine ⟨?_, by simp, by simp, ?_⟩
      · exact noAdjSeq_cons ih1 (fun habs => absurd habs (by simp))
      · intro l hl
        simp only [List.mem_cons] at hl
        rcases hl with h' | h'
        · exact absurd h' (by simp)
        · exact ih4 l h'
  | case8 rest pos cc rem pos' hpc e hrec hb1 hb2 ih =>
    intro ts h
    rw [scanLoop.eq_def] at h
    simp at h
    split at h
    · simp at h
    · rename_i cc2 rem2 pos2 heq
      rw [hpc] at heq
      simp only [Except.ok.injEq, Prod.mk.injEq] at heq
      obtain ⟨e1, e2, e3⟩ := heq
      subst e2
      subst e3
      simp [hrec] at h
  | case9 c rest pos hc1 hc2 hc3 e hlit =>
    intro ts h
    rw [scanLoop.eq_def] at h
    simp [hc1, hc2, hc3] at h
    split at h
    · simp at h
    · rename_i lit2 rem2 pos2 heq
      rw [hlit] at heq
      simp at heq
  | case10 c rest pos hc1 hc2 hc3 lit rem pos' hlit hempty ih =>
    intro ts h
    have hne := (scanLiteral_cons_length (by simp [hc1, hc2, hc3]) hlit).2
    cases lit with
    | nil => exact absurd rfl hne
    | cons a l => simp at hempty
  | case11 c rest pos hc1 hc2 hc3 lit rem pos' hlit hempty ts0 hrec ih =>
    intro ts h
    have hne := (scanLiteral_cons_length (by simp [hc1, hc2, hc3]) hlit).2
    rw [scanLoop.eq_def] at h
    simp [hc1, hc2, hc3] at h
    split at h
    · rename_i e2 heq
      rw [hlit] at heq
      simp at heq
    · rename_i lit2 rem2 pos2 heq
      rw [hlit] at heq
      simp only [Except.ok.injEq, Prod.mk.injEq] at heq
      obtain ⟨e1, e2, e3⟩ := heq
      subst e1
      subst e2
      subst e3
      rw [if_neg hne] at h
      simp [hrec] at h
      subst h
      obtain ⟨ih1, ih2, ih3, ih4⟩ := ih ts0 hrec
      refine ⟨?_, by simp, by simp, ?_⟩
      · exact noAdjSeq_cons ih1 (fun habs => absurd habs (by simp))
      · intro l hl
        simp only [List.mem_cons] at hl
        rcases hl with h' | h'
        · simp only [GlobToken.literal.injEq] at h'
          subst h'
          exact hne
        · exact ih4 l h'
  | case12 c rest pos hc1 hc2 hc3 lit rem pos' hlit hempty e hrec ih =>
    intro ts h
    have hne := (scanLiteral_cons_length (by simp [hc1, hc2, hc3]) hlit).2
    rw [scanLoop.eq_def] at h
    simp [hc1, hc2, hc3] at h
    split at h
    · simp at h
    · rename_i lit2 rem2 pos2 heq
      rw [hlit] at heq
      simp only [Except.ok.injEq, Prod.mk.injEq] at heq
      obtain ⟨e1, e2, e3⟩ := heq
      subst e1
      subst e2
      subst e3
      rw [if_neg hne] at h
      simp [hrec] at h

/-- Claim C9: every token sequence produced by a successful compile is
non-empty (the empty pattern is rejected before any tokens are produced) and
contains no two adjacent `SeqWildcard` tokens, every run of consecutive `*`
having collapsed into one token. -/
theorem compiled_tokens_invariant :
    ∀ (p : List Char) (ts : List GlobToken), scanPatterns p = .ok ts →
      ts ≠ [] ∧ noAdjSeq ts = true := by
  intro p ts h
  unfold scanPatterns at h
  split at h
  · simp at h
  · rename_i hp
    obtain ⟨hadj, hne, -, -⟩ := scanLoop_inv p 0 ts h
    exact ⟨hne (fun hnil => by subst hnil; simp at hp), hadj⟩

/-- Witness for `compiled_tokens_invariant` at the concrete pattern "a*". -/
theorem compiled_tokens_invariant_witness :
    [GlobToken.literal ['a'], GlobToken.seqWildcard] ≠ [] ∧
    noAdjSeq [GlobToken.literal ['a'], GlobToken.seqWildcard] = true :=
  compiled_tokens_invariant "a*".toList _
    (by simp [scanPatterns, scanLoop, scanLiteral, String.toList, Char.utf8Size])

/-- Claim C10: a successfully compiled pattern matches the empty candidate
iff its token sequence is exactly the single token `SeqWildcard` — only
patterns that are one run of `*` match the empty string, since scanned
`Literal` tokens are never empty and every other token consumes a
character. -/
theorem matches_empty_iff_single_seq :
    ∀ (p : List Char) (ts : List GlobToken), scanPatterns p = .ok ts →
      (globMatchTokens ts [] = true ↔ ts = [GlobToken.seqWildcard]) := by
  intro p ts h
  unfold scanPatterns at h
  split at h
  · simp at h
  · rename_i hp
    obtain ⟨hadj, hne, hhead, hlits⟩ := scanLoop_inv p 0 ts h
    constructor
    · intro hmatch
      cases ts with
      | nil => exact absurd rfl (hne (fun hnil => by subst hnil; simp at hp))
      | cons t ts' =>
        cases t with
        | literal l =>
          have hl := hlits l (by simp)
          cases l with
          | nil => exact absurd rfl hl
          | cons a l' =>
            rw [globMatchTokens] at hmatch
            simp [GlobToken.tryMatchesNext, stripPrefixList] at hmatch
        | charClass cc =>
          rw [globMatchTokens] at hmatch
          simp [GlobToken.tryMatchesNext, CharClass.matchesNext] at hmatch
        | singleWildcard =>
          rw [globMatchTokens] at hmatch
          simp [GlobToken.tryMatchesNext] at hmatch
        | seqWildcard =>
          cases ts' with
          | nil => rfl
          | cons t2 ts2 =>
            rw [globMatchTokens] at hmatch
            simp [GlobToken.tryMatchesNext, starLoop] at hmatch
    · intro hts
      subst hts
      simp [globMatchTokens, GlobToken.tryMatchesNext]

/-- Witness for `matches_empty_iff_single_seq` at the concrete pattern "*". -/
theorem matches_empty_iff_single_seq_witness :
    globMatchTokens [GlobToken.seqWildcard] [] = true ↔
      [GlobToken.seqWildcard] = [GlobToken.seqWildcard] :=
  matches_empty_iff_single_seq "*".toList _
    (by simp [scanPatterns, scanLoop, String.toList])
